import Mathlib

/-!
Verification of the node-share-folder host/client pipeline.

JS strings are modelled as `List Char` (`JSStr`).  The filesystem is an
association list from absolute segment paths to nodes.  All definitions are
translated from the repository sources:
  * `src/helpers.ts` — `normalizePath`, `normalizeString`, `toBooleanSafe`,
    `toStringSafe` (on optional strings);
  * `src/host.ts` — `IS_OUTSIDE`, `SANATIZE_PATH`, the four endpoint
    handlers and the middleware chain (request-validator gate, basic-auth
    gate, read-only gate, root-availability gate);
  * the earlier host variant (CIDR allow-list middleware, sorted listing);
  * `src/client.ts` — status-code interpretation and the listing re-sort.
External collaborators (Node `path.posix`, the `sanitize-filename` npm
package, the `ip` npm package, `Buffer` base64 decoding) are modelled
explicitly, except base64 decoding which is kept as a function parameter.
-/

abbrev JSStr := List Char

/-- JS whitespace for `String.prototype.trim` (ASCII subset). -/
def isSpaceChar (c : Char) : Bool :=
  c = ' ' || c = '\t' || c = '\n' || c = '\r' || c.toNat = 11 || c.toNat = 12

def trimL (s : JSStr) : JSStr := s.dropWhile isSpaceChar

/-- `String.prototype.trim`. -/
def trimStr (s : JSStr) : JSStr := ((trimL s).reverse.dropWhile isSpaceChar).reverse

/-- `s.startsWith(pre)`. -/
def jstartsWith : JSStr → JSStr → Bool
  | _, [] => true
  | [], _ :: _ => false
  | c :: s, d :: p => c = d && jstartsWith s p

/-- `s.endsWith(suf)`. -/
def jendsWith (s suf : JSStr) : Bool := jstartsWith s.reverse suf.reverse

/-- `s.toLowerCase()` (ASCII behaviour). -/
def toLowerStr (s : JSStr) : JSStr := s.map Char.toLower

/-- `s.indexOf(c)` (as an option instead of `-1`). -/
def idxOfChar (c : Char) : JSStr → Option Nat
  | [] => none
  | d :: rest => if d = c then some 0 else (idxOfChar c rest).map (· + 1)

/-- `s.split('/')` (keeps empty fields, like JS `split`). -/
def splitSlashAux : JSStr → JSStr → List JSStr
  | acc, [] => [acc.reverse]
  | acc, c :: rest =>
    if c = '/' then acc.reverse :: splitSlashAux [] rest
    else splitSlashAux (c :: acc) rest

def splitSlash (s : JSStr) : List JSStr := splitSlashAux [] s

/-- `parts.join('/')`. -/
def joinSlash : List JSStr → JSStr
  | [] => []
  | [s] => s
  | s :: rest => s ++ '/' :: joinSlash rest

/-- `toStringSafe` from `helpers.ts` restricted to string-or-nil values:
a missing value becomes the empty string. -/
def toStringSafeOpt (v : Option JSStr) : JSStr :=
  match v with
  | some s => s
  | none => []

/-- `normalizeString` from `helpers.ts`: `toStringSafe(val).toLowerCase().trim()`. -/
def normalizeString (s : JSStr) : JSStr := trimStr (toLowerStr s)

/-- `p.substr(p.indexOf('/') + 1)` — used by the leading-slash loop of
`normalizePath`; when there is no `'/'`, JS `substr(0)` returns `p`. -/
def dropThroughSlash (p : JSStr) : JSStr :=
  match idxOfChar '/' p with
  | some i => p.drop (i + 1)
  | none => p

/-- `p.substr(0, p.lastIndexOf('/'))` — used by the trailing-slash loop of
`normalizePath`; when there is no `'/'`, JS `substr(0, -1)` returns `''`. -/
def cutAtLastSlash (p : JSStr) : JSStr :=
  match idxOfChar '/' p.reverse with
  | some i => p.take (p.length - 1 - i)
  | none => []

/-- The `while (p.trim().startsWith('/'))` loop of `normalizePath`,
written with explicit fuel (each iteration strictly shortens `p`). -/
def stripLeadLoop : Nat → JSStr → JSStr
  | 0, p => p
  | fuel + 1, p =>
    if jstartsWith (trimStr p) ['/'] then stripLeadLoop fuel (dropThroughSlash p) else p

/-- The `while (p.trim().endsWith('/'))` loop of `normalizePath`. -/
def stripTrailLoop : Nat → JSStr → JSStr
  | 0, p => p
  | fuel + 1, p =>
    if jendsWith (trimStr p) ['/'] then stripTrailLoop fuel (cutAtLastSlash p) else p

/-- `normalizePath` from `helpers.ts`.  On a POSIX host `Path.sep` is `'/'`,
so the `split(Path.sep).join('/')` step is written with that separator. -/
def normalizePath (p0 : JSStr) : JSStr :=
  let p1 := if trimStr p0 = ['.'] then [] else p0
  let p2 := joinSlash (splitSlash p1)
  let p3 := stripLeadLoop (p2.length + 1) p2
  let p4 := stripTrailLoop (p3.length + 1) p3
  if jstartsWith (trimStr p4) ['/'] then p4 else '/' :: p4

/-- Segment-level model of Node `path.posix` resolution: processes a list of
raw segments, skipping empty and `.` segments and letting `..` pop the last
kept segment (clamping at the filesystem root, as `path.resolve` does for
absolute paths). -/
def resolveSegsGo : List JSStr → List JSStr → List JSStr
  | stack, [] => stack.reverse
  | stack, s :: rest =>
    if s = [] ∨ s = ['.'] then resolveSegsGo stack rest
    else if s = ['.', '.'] then resolveSegsGo (stack.drop 1) rest
    else resolveSegsGo (s :: stack) rest

def resolveSegs (segs : List JSStr) : List JSStr := resolveSegsGo [] segs

/-- Render an absolute segment path as the string Node produces
(`"/"` for the empty list). -/
def renderAbs (segs : List JSStr) : JSStr := '/' :: joinSlash segs

/-- `Path.resolve(Path.join(rootDir, requestedPath))` for an absolute,
already-resolved `rootDir` given as canonical segments. -/
def resolveJoin (root : List JSStr) (req : JSStr) : JSStr :=
  renderAbs (resolveSegs (root ++ splitSlash req))

/-- `IS_OUTSIDE` from `host.ts` (`setupEndpoints`): re-normalizes the
requested path, resolves it against the root and accepts only the root
itself or a strict descendant of `rootDir + Path.sep`. -/
def IS_OUTSIDE (root : List JSStr) (requestedPath : JSStr) : Bool :=
  let rp := normalizePath requestedPath
  let fileOrFolder := resolveJoin root rp
  let rootStr := renderAbs root
  !(rootStr == fileOrFolder) && !(jstartsWith fileOrFolder (rootStr ++ ['/']))

/-- A root as produced by `Path.resolve`: no empty, `.` or `..` segments. -/
def CanonicalRoot (root : List JSStr) : Prop :=
  ∀ s ∈ root, s ≠ [] ∧ s ≠ ['.'] ∧ s ≠ ['.', '.']

instance : DecidablePred CanonicalRoot := fun root =>
  inferInstanceAs (Decidable (∀ s ∈ root, s ≠ [] ∧ s ≠ ['.'] ∧ s ≠ ['.', '.']))

/-- Characters removed by the `sanitize-filename` npm package
(`/[\/\?<>\\:\*\|"]/g`). -/
def isIllegalFilenameChar (c : Char) : Bool :=
  c = '/' || c = '?' || c = '<' || c = '>' || c = '\\' || c = ':' || c = '*' || c = '|' || c = '"'

/-- Control characters removed by `sanitize-filename`
(`/[\x00-\x1f\x80-\x9f]/g`). -/
def isControlChar (c : Char) : Bool :=
  c.toNat < 32 || (128 ≤ c.toNat && c.toNat ≤ 159)

/-- Base names matched by `sanitize-filename`'s Windows reserved-name
pattern (`con|prn|aux|nul|com[0-9]|lpt[0-9]`, case already lowered). -/
def reservedBase (s : JSStr) : Bool :=
  s == "con".toList || s == "prn".toList || s == "aux".toList || s == "nul".toList ||
  (match s with
   | [a, b, c, d] => ([a, b, c] == "com".toList || [a, b, c] == "lpt".toList) && d.isDigit
   | _ => false)

/-- `/^(con|prn|aux|nul|com[0-9]|lpt[0-9])(\..*)?$/i`. -/
def isWindowsReserved (s : JSStr) : Bool :=
  let l := toLowerStr s
  match idxOfChar '.' l with
  | none => reservedBase l
  | some i => reservedBase (l.take i)

/-- `/[\. ]+$/` removal. -/
def stripTrailingDotsSp (s : JSStr) : JSStr :=
  (s.reverse.dropWhile (fun c => c = '.' || c = ' ')).reverse

/-- The `sanitize-filename` npm package (external collaborator of
`SANATIZE_PATH`): strips illegal and control characters, erases all-dot
names and Windows reserved names, strips trailing dots/spaces, truncates
to 255. -/
def sanitizeFilename (input : JSStr) : JSStr :=
  let s1 := input.filter (fun c => !isIllegalFilenameChar c)
  let s2 := s1.filter (fun c => !isControlChar c)
  let s3 := if s2 ≠ [] ∧ s2.all (· = '.') then [] else s2
  let s4 := if isWindowsReserved s3 then [] else s3
  (stripTrailingDotsSp s4).take 255

/-- `SANATIZE_PATH(Path.join(rootDir, requestedPath))` from
`setupEndpoints`, at segment level: on the normalized join,
`Path.dirname` keeps all but the last segment and `Path.basename` is the
last segment; the sanitized base name is re-joined and re-resolved. -/
def sanitizedTarget (root : List JSStr) (requestedPath : JSStr) : List JSStr :=
  let segs := resolveSegs (root ++ splitSlash requestedPath)
  match segs.getLast? with
  | none => []
  | some base => resolveSegs (segs.dropLast ++ [sanitizeFilename base])

/-- A filesystem node: `isDir`, byte content (whose length models
`stat.size`; for directories it just carries the reported size) and the
`ctime`/`mtime` stamps reported by `stat`. -/
structure FsNode where
  isDir : Bool
  content : List Nat
  ctime : Nat
  mtime : Nat
deriving DecidableEq

abbrev FsPath := List JSStr

/-- The filesystem: an association list from absolute segment paths to
nodes; list order is the order `readdir` reports children in. -/
abbrev Fs := List (FsPath × FsNode)

def fsLookup (fs : Fs) (p : FsPath) : Option FsNode :=
  match fs with
  | [] => none
  | (q, n) :: rest => if q = p then some n else fsLookup rest p

/-- `FSExtra.exists`. -/
def fsExists (fs : Fs) (p : FsPath) : Bool := (fsLookup fs p).isSome

/-- Insert or replace a node. -/
def fsSet (fs : Fs) (p : FsPath) (n : FsNode) : Fs :=
  match fs with
  | [] => [(p, n)]
  | (q, m) :: rest => if q = p then (p, n) :: rest else (q, m) :: fsSet rest p n

/-- `FSExtra.readdir`: names of immediate children, in filesystem order. -/
def readdirNames (fs : Fs) (p : FsPath) : List JSStr :=
  fs.filterMap (fun e =>
    match e.1.drop p.length with
    | [name] => if e.1.take p.length = p then some name else none
    | _ => none)

/-- One step of `FSExtra.mkdirs`: walk the given prefixes in order,
creating missing directories; an existing non-directory aborts with an
error (`ENOTDIR`), leaving the filesystem unchanged. -/
def mkdirsGo (now : Nat) (fs : Fs) : List FsPath → Except Unit Fs
  | [] => .ok fs
  | q :: rest =>
    match fsLookup fs q with
    | some n => if n.isDir then mkdirsGo now fs rest else .error ()
    | none => mkdirsGo now (fsSet fs q ⟨true, [], now, now⟩) rest

/-- `FSExtra.mkdirs p`: create `p` and all missing ancestors. -/
def mkdirsFs (now : Nat) (fs : Fs) (p : FsPath) : Except Unit Fs :=
  mkdirsGo now fs ((List.range p.length).map (fun i => p.take (i + 1)))

/-- `FSExtra.writeFile`: requires the parent to be an existing directory
and the target not to be a directory; replaces any existing content. -/
def writeFileFs (now : Nat) (fs : Fs) (p : FsPath) (data : List Nat) : Except Unit Fs :=
  match p.getLast? with
  | none => .error ()
  | some _ =>
    match fsLookup fs p.dropLast with
    | some parent =>
      if parent.isDir then
        match fsLookup fs p with
        | some n =>
          if n.isDir then .error ()
          else .ok (fsSet fs p ⟨false, data, n.ctime, now⟩)
        | none => .ok (fsSet fs p ⟨false, data, now, now⟩)
      else .error ()
    | none => .error ()

/-- `FSExtra.remove`: delete the entry and everything below it. -/
def removeRecFs (fs : Fs) (p : FsPath) : Fs :=
  fs.filter (fun e =>
    !(e.1 == p || (e.1.take p.length == p && decide (p.length < e.1.length))))

/-- `FSExtra.unlink`. -/
def unlinkFs (fs : Fs) (p : FsPath) : Fs := fs.filter (fun e => !(e.1 == p))

inductive DirectoryEntryType
  | Unknown
  | Directory
  | File
deriving DecidableEq

/-- `DirectoryEntry` from `host.ts` (timestamps kept as the numeric stamps
the ISO strings are produced from). -/
structure DirEntry where
  ctime : Nat
  mtime : Nat
  name : JSStr
  size : Nat
  type : DirectoryEntryType
deriving DecidableEq

/-- `TO_DIRECTORY_ENTRY` from `setupEndpoints`. -/
def toDirectoryEntry (stat : FsNode) (n : JSStr) : DirEntry :=
  { ctime := stat.ctime
    mtime := stat.mtime
    name := n
    size := stat.content.length
    type := if stat.isDir then .Directory else .File }

/-- `Path.basename` of a rendered segment path (`""` for the root). -/
def lastName (p : FsPath) : JSStr :=
  match p.getLast? with
  | some s => s
  | none => []

inductive RBody
  | empty
  | entry (e : DirEntry)
  | listing (es : List DirEntry)
  | raw (data : List Nat)
deriving DecidableEq

/-- An HTTP response: status, the headers the model tracks
(`x-share-folder-type`, `WWW-Authenticate`) and the body. -/
structure Resp where
  status : Nat
  headers : List (JSStr × JSStr)
  body : RBody
deriving DecidableEq

def statusOnly (c : Nat) : Resp := ⟨c, [], .empty⟩

/-- Filesystem calls a handler performs, in order. -/
inductive FsOp
  | exCheck (p : FsPath)
  | statOp (p : FsPath)
  | readdirOp (p : FsPath)
  | readFileOp (p : FsPath)
  | mkdirsOp (p : FsPath)
  | writeOp (p : FsPath)
  | removeOp (p : FsPath)
  | unlinkOp (p : FsPath)
deriving DecidableEq

/-- Outcome of one endpoint handler: the response (`none` models an
unhandled rejection — no response is ever written), the resulting
filesystem and the filesystem calls performed. -/
structure HOut where
  resp : Option Resp
  fs : Fs
  ops : List FsOp
deriving DecidableEq

def HEADER_TYPE : JSStr := "x-share-folder-type".toList

/-- The entries of a listing response, if any. -/
def listingOf (h : HOut) : Option (List DirEntry) :=
  match h.resp with
  | some ⟨_, _, .listing es⟩ => some es
  | _ => none

/-- `'1' === sf_helpers.normalizeString(req.query['info'])`. -/
def isInfoQuery (infoQ : Option JSStr) : Bool :=
  normalizeString (toStringSafeOpt infoQ) == ['1']

/-- The `app.get('/*')` handler from `setupEndpoints`: directory listing,
file content, or metadata when the `info` query flag is set.  The current
host emits listing entries in `readdir` order (no sorting). -/
def getHandler (root : List JSStr) (fs : Fs) (reqPath : JSStr) (infoQ : Option JSStr) : HOut :=
  let rp := normalizePath reqPath
  if IS_OUTSIDE root rp then ⟨some (statusOnly 400), fs, []⟩
  else
    let t := sanitizedTarget root rp
    match fsLookup fs t with
    | none => ⟨some (statusOnly 404), fs, [.exCheck t]⟩
    | some selfStat =>
      if isInfoQuery infoQ then
        -- `'/' === REQUESTED_PATH ? undefined : Path.basename(...)`; the
        -- explicit `undefined` is coerced to `''` by `toStringSafe`.
        ⟨some ⟨200, [], .entry (toDirectoryEntry selfStat
            (if rp = ['/'] then [] else lastName t))⟩,
         fs, [.exCheck t, .statOp t]⟩
      else if selfStat.isDir then
        let names := readdirNames fs t
        let entries := names.filterMap (fun nm =>
          (fsLookup fs (t ++ [nm])).map (fun st => toDirectoryEntry st nm))
        let ops := [FsOp.exCheck t, FsOp.statOp t, FsOp.readdirOp t] ++
          names.map (fun nm => FsOp.statOp (t ++ [nm]))
        if entries.length > 0 then
          ⟨some ⟨200, [(HEADER_TYPE, ['d'])], .listing entries⟩, fs, ops⟩
        else
          ⟨some ⟨204, [(HEADER_TYPE, ['d'])], .empty⟩, fs, ops⟩
      else
        if selfStat.content.length > 0 then
          ⟨some ⟨200, [(HEADER_TYPE, ['f'])], .raw selfStat.content⟩, fs,
           [.exCheck t, .statOp t, .readFileOp t]⟩
        else
          ⟨some ⟨204, [(HEADER_TYPE, ['f'])], .empty⟩, fs,
           [.exCheck t, .statOp t, .readFileOp t]⟩

/-- The `app.post('/*')` handler from `setupEndpoints`: create directory. -/
def postHandler (root : List JSStr) (fs : Fs) (reqPath : JSStr) (now : Nat) : HOut :=
  let rp := normalizePath reqPath
  if IS_OUTSIDE root rp || rp == ['/'] then ⟨some (statusOnly 400), fs, []⟩
  else
    let t := sanitizedTarget root rp
    if fsExists fs t then ⟨some (statusOnly 409), fs, [.exCheck t]⟩
    else
      match mkdirsFs now fs t with
      | .error _ => ⟨none, fs, [.exCheck t, .mkdirsOp t]⟩
      | .ok fs1 =>
        match fsLookup fs1 t with
        | some st =>
          ⟨some ⟨200, [], .entry (toDirectoryEntry st (lastName t))⟩, fs1,
           [.exCheck t, .mkdirsOp t, .statOp t]⟩
        | none => ⟨none, fs1, [.exCheck t, .mkdirsOp t, .statOp t]⟩

/-- The tail of the `app.put('/*')` handler: ensure the parent directory
exists (`mkdirs` when missing), write the body, stat the result. -/
def putWrite (fs : Fs) (t : FsPath) (body : List Nat) (now : Nat) (ops0 : List FsOp) : HOut :=
  let dir := t.dropLast
  if fsExists fs dir then
    match writeFileFs now fs t body with
    | .error _ => ⟨none, fs, ops0 ++ [.exCheck dir, .writeOp t]⟩
    | .ok fs2 =>
      match fsLookup fs2 t with
      | some st =>
        ⟨some ⟨200, [], .entry (toDirectoryEntry st (lastName t))⟩, fs2,
         ops0 ++ [.exCheck dir, .writeOp t, .statOp t]⟩
      | none => ⟨none, fs2, ops0 ++ [.exCheck dir, .writeOp t, .statOp t]⟩
  else
    match mkdirsFs now fs dir with
    | .error _ => ⟨none, fs, ops0 ++ [.exCheck dir, .mkdirsOp dir]⟩
    | .ok fs1 =>
      match writeFileFs now fs1 t body with
      | .error _ => ⟨none, fs1, ops0 ++ [.exCheck dir, .mkdirsOp dir, .writeOp t]⟩
      | .ok fs2 =>
        match fsLookup fs2 t with
        | some st =>
          ⟨some ⟨200, [], .entry (toDirectoryEntry st (lastName t))⟩, fs2,
           ops0 ++ [.exCheck dir, .mkdirsOp dir, .writeOp t, .statOp t]⟩
        | none => ⟨none, fs2, ops0 ++ [.exCheck dir, .mkdirsOp dir, .writeOp t, .statOp t]⟩

/-- The `app.put('/*')` handler from `setupEndpoints`: write a file. -/
def putHandler (root : List JSStr) (fs : Fs) (reqPath : JSStr) (body : List Nat) (now : Nat) : HOut :=
  let rp := normalizePath reqPath
  if IS_OUTSIDE root rp || rp == ['/'] then ⟨some (statusOnly 400), fs, []⟩
  else
    let t := sanitizedTarget root rp
    match fsLookup fs t with
    | some st =>
      if st.isDir then ⟨some (statusOnly 409), fs, [.exCheck t, .statOp t]⟩
      else putWrite fs t body now [.exCheck t, .statOp t]
    | none => putWrite fs t body now [.exCheck t]

/-- The `app.delete('/*')` handler from `setupEndpoints`: remove a file or
folder, answering with the entry captured before deletion. -/
def deleteHandler (root : List JSStr) (fs : Fs) (reqPath : JSStr) : HOut :=
  let rp := normalizePath reqPath
  if IS_OUTSIDE root rp || rp == ['/'] then ⟨some (statusOnly 400), fs, []⟩
  else
    let t := sanitizedTarget root rp
    match fsLookup fs t with
    | none => ⟨some (statusOnly 404), fs, [.exCheck t]⟩
    | some st =>
      ⟨some ⟨200, [], .entry (toDirectoryEntry st (lastName t))⟩,
       if st.isDir then removeRecFs fs t else unlinkFs fs t,
       [.exCheck t, .statOp t, if st.isDir then FsOp.removeOp t else FsOp.unlinkOp t]⟩

/-- A JS value, as far as `toBooleanSafe` (truthiness) distinguishes. -/
inductive JsVal
  | undef
  | jnull
  | jbool (b : Bool)
  | jnum (n : Int)
  | jstr (s : JSStr)
deriving DecidableEq

/-- `toBooleanSafe` from `helpers.ts`: booleans pass through, nil values
take the default, everything else is `!!val`. -/
def toBooleanSafe (val : JsVal) (defaultVal : Bool) : Bool :=
  match val with
  | .jbool b => b
  | .undef => defaultVal
  | .jnull => defaultVal
  | .jnum n => decide (n ≠ 0)
  | .jstr s => decide (s ≠ [])

/-- Result of one middleware gate: pass on, answer, or terminate the
socket without writing any HTTP status or body. -/
inductive GateOut
  | next
  | reply (r : Resp)
  | hangup
deriving DecidableEq

/-- The IP-check middleware of the current host (`createInstance`): when a
request validator is configured, its (awaited) verdict is coerced with
`toBooleanSafe`; a falsy verdict ends the socket.  The argument is the
validator's result for this request (`none` = no validator configured). -/
def ipGateV (requestValidatorResult : Option JsVal) : GateOut :=
  match requestValidatorResult with
  | none => .next
  | some r => if toBooleanSafe r false then .next else .hangup

/-- A CIDR network range (IPv4 addresses as naturals below `2^32`). -/
structure Cidr where
  base : Nat
  maskBits : Nat
deriving DecidableEq

/-- `IP.cidrSubnet(a).contains(addr)`: the first `maskBits` bits agree. -/
def cidrContains (c : Cidr) (addr : Nat) : Bool :=
  addr / 2 ^ (32 - c.maskBits) == c.base / 2 ^ (32 - c.maskBits)

/-- `IP.isLoopback` for IPv4: the first octet is 127. -/
def isLoopbackV4 (addr : Nat) : Bool := addr / 2 ^ 24 == 127

/-- The IP-check middleware of the earlier host variant: an empty
allow-list admits everyone; otherwise the source address must be loopback
or inside some configured CIDR range, else the socket is ended
(`req.socket.end()`) and no HTTP status or body is ever written. -/
def ipCheckGate (allowedIps : List Cidr) (remote : Nat) : GateOut :=
  let canConnect := decide (allowedIps.length < 1)
  let canConnect := canConnect || isLoopbackV4 remote
  let canConnect := canConnect || allowedIps.any (fun a => cidrContains a remote)
  if canConnect then .next else .hangup

/-- The username/password pair the basic-auth middleware hands to the
account validator.  `none` stands for a JS variable left `undefined`: when
the `authorization` header is missing or does not start with `basic `,
both variables are never assigned.  Inside the `basic ` branch the
username is normalized and the password is coerced with `toStringSafe`
(so a credential without `':'` yields an empty-string password).
`decode` is `Buffer.from(·, 'base64').toString('utf8')`, an external
collaborator kept as a parameter. -/
def authArgs (decode : JSStr → JSStr) (authHeader : Option JSStr) : Option JSStr × Option JSStr :=
  let AUTH := trimStr (toStringSafeOpt authHeader)
  if jstartsWith (toLowerStr AUTH) "basic ".toList then
    let UP := decode (trimStr (AUTH.drop 6))
    match idxOfChar ':' UP with
    | some i => (some (normalizeString (UP.take i)), some (UP.drop (i + 1)))
    | none => (some (normalizeString UP), some [])
  else (none, none)

/-- The realm computed in `createInstance`: the trimmed option, defaulting
to `node-share-folder` when empty. -/
def realmOf (realmOpt : Option JSStr) : JSStr :=
  let r := trimStr (toStringSafeOpt realmOpt)
  if r == [] then "node-share-folder".toList else r

/-- The basic-auth middleware of the current host: when an account
validator is configured, its verdict on `authArgs` decides; a falsy
verdict answers 401 with a `WWW-Authenticate: Basic realm=...` challenge
and stops the chain. -/
def authGate (decode : JSStr → JSStr) (realm : JSStr)
    (accountValidator : Option (Option JSStr → Option JSStr → JsVal))
    (authHeader : Option JSStr) : GateOut :=
  match accountValidator with
  | none => .next
  | some V =>
    let args := authArgs decode authHeader
    if toBooleanSafe (V args.1 args.2) false then .next
    else .reply ⟨401, [("WWW-Authenticate".toList, "Basic realm=".toList ++ trimStr realm)], .empty⟩

/-- The read-only middleware of the current host: unless `canWrite` is
truthy, the four mutating verbs are answered 403; anything else passes. -/
def roGate (canWrite : JsVal) (method : JSStr) : GateOut :=
  if !toBooleanSafe canWrite false then
    if normalizeString method == "delete".toList || normalizeString method == "patch".toList
        || normalizeString method == "post".toList || normalizeString method == "put".toList
    then .reply (statusOnly 403)
    else .next
  else .next

/-- The root-availability middleware: the shared root must exist and be a
directory, else 503. -/
def rootGate (fs : Fs) (root : List JSStr) : GateOut :=
  match fsLookup fs root with
  | some n => if n.isDir then .next else .reply (statusOnly 503)
  | none => .reply (statusOnly 503)

/-- Host options, as far as the pipeline reads them.  The two validators
are represented by their (awaited) results for the request at hand. -/
structure HostOpts where
  requestValidatorResult : Option JsVal
  accountValidator : Option (Option JSStr → Option JSStr → JsVal)
  canWrite : JsVal
  realmOpt : Option JSStr

structure Request where
  method : JSStr
  path : JSStr
  infoQ : Option JSStr
  authHeader : Option JSStr
  body : List Nat

/-- What a whole request produced: a closed socket (no HTTP exchange), or
a possibly-absent response together with whether an endpoint handler ran,
the resulting filesystem and the filesystem calls made by the handler. -/
inductive PipeOut
  | closed
  | replied (resp : Option Resp) (handlerRan : Bool) (fs : Fs) (ops : List FsOp)
deriving DecidableEq

/-- Express routing: the four registered verbs; any other method falls
through to Express's default 404. -/
def dispatchVerb (root : List JSStr) (fs : Fs) (req : Request) (now : Nat) : Option HOut :=
  if req.method == "GET".toList then some (getHandler root fs req.path req.infoQ)
  else if req.method == "POST".toList then some (postHandler root fs req.path now)
  else if req.method == "PUT".toList then some (putHandler root fs req.path req.body now)
  else if req.method == "DELETE".toList then some (deleteHandler root fs req.path)
  else none

/-- The middleware chain of the current host, in source order: IP check,
basic auth, read-only gate, root-availability gate, then the endpoint
handlers. -/
def processRequest (opts : HostOpts) (decode : JSStr → JSStr) (root : List JSStr)
    (fs : Fs) (req : Request) (now : Nat) : PipeOut :=
  match ipGateV opts.requestValidatorResult with
  | .hangup => .closed
  | .reply r => .replied (some r) false fs []
  | .next =>
  match authGate decode (realmOf opts.realmOpt) opts.accountValidator req.authHeader with
  | .hangup => .closed
  | .reply r => .replied (some r) false fs []
  | .next =>
  match roGate opts.canWrite req.method with
  | .hangup => .closed
  | .reply r => .replied (some r) false fs []
  | .next =>
  match rootGate fs root with
  | .hangup => .closed
  | .reply r => .replied (some r) false fs []
  | .next =>
  match dispatchVerb root fs req now with
  | some h => .replied h.resp true h.fs h.ops
  | none => .replied (some (statusOnly 404)) false fs []

/-- Outcomes a client call can produce: a resolved result carrying the
status code, or one of the thrown errors of `client.ts`.  `errForbidden`,
`errAlreadyExists` and `errConflictGeneric` do not occur in the client
code; they exist so the specification's claimed mapping can be written
down and compared. -/
inductive ClientOutcome
  | success (code : Nat)
  | errInvalidPath
  | errUnauthorized
  | errNotFound
  | errNoDirectory
  | errNoFile
  | errIsDirectory
  | errForbidden
  | errAlreadyExists
  | errConflictGeneric
  | errUnexpected (code : Nat)
deriving DecidableEq

/-- The `CALLBACK` of `ShareFolderClient.request`: 400, 401 and 404 are
turned into errors; every other status resolves to a result carrying the
code. -/
def requestCallback (code : Nat) : ClientOutcome :=
  if code = 400 then .errInvalidPath
  else if code = 401 then .errUnauthorized
  else if code = 404 then .errNotFound
  else .success code

/-- `ShareFolderClient.upload`: non-200 resolved codes throw, with 409
reported as `Path is a directory!`. -/
def uploadOutcome (code : Nat) : ClientOutcome :=
  match requestCallback code with
  | .success c =>
    if c = 200 then .success 200
    else if c = 409 then .errIsDirectory
    else .errUnexpected c
  | e => e

/-- `ShareFolderClient.remove`: only 200 succeeds. -/
def removeOutcome (code : Nat) : ClientOutcome :=
  match requestCallback code with
  | .success c => if c = 200 then .success 200 else .errUnexpected c
  | e => e

/-- `ShareFolderClient.list`: the `x-share-folder-type` header must be
`d` (checked before the status), then only 200/204 succeed. -/
def listOutcome (code : Nat) (hdrType : JSStr) : ClientOutcome :=
  match requestCallback code with
  | .success c =>
    if !(normalizeString hdrType == ['d']) then .errNoDirectory
    else if !(c = 200 || c = 204) then .errUnexpected c
    else .success c
  | e => e

/-- `ShareFolderClient.download`: only 200/204 succeed (checked first),
then the `x-share-folder-type` header must be `f`. -/
def downloadOutcome (code : Nat) (hdrType : JSStr) : ClientOutcome :=
  match requestCallback code with
  | .success c =>
    if !(c = 200 || c = 204) then .errUnexpected c
    else if !(normalizeString hdrType == ['f']) then .errNoFile
    else .success c
  | e => e

inductive ClientVerb
  | vlist
  | vdownload
  | vupload
  | vremove
  | vcreate
deriving DecidableEq

/-- The response interpretation CLAIMED by the specification (written from
the spec's words, for comparison with the client code): a fixed mapping
from status code to outcome, with 403 mapped to a Forbidden error and 409
to a Conflict error distinguished by verb context. -/
def specClientOutcome (v : ClientVerb) (code : Nat) : ClientOutcome :=
  if code = 200 then .success 200
  else if code = 204 then .success 204
  else if code = 400 then .errInvalidPath
  else if code = 401 then .errUnauthorized
  else if code = 403 then .errForbidden
  else if code = 404 then .errNotFound
  else if code = 409 then
    match v with
    | .vupload => .errIsDirectory
    | .vcreate => .errAlreadyExists
    | _ => .errConflictGeneric
  else .errUnexpected code

/-- Total lexicographic comparison of char lists by code point (JS string
`<`/`>` on the sort keys). -/
def charListLe : JSStr → JSStr → Bool
  | [], _ => true
  | _ :: _, [] => false
  | a :: as, b :: bs =>
    if a.toNat < b.toNat then true
    else if b.toNat < a.toNat then false
    else charListLe as bs

/-- The primary sort key of the listing order: directories first. -/
def rankOfEntry (e : DirEntry) : Nat :=
  if e.type = DirectoryEntryType.Directory then 0 else 1

/-- The composite ordering used by `ShareFolderClient.list`
(`orderBy(type rank).thenBy(normalizeString(name))`). -/
def entryLe (a b : DirEntry) : Bool :=
  if rankOfEntry a < rankOfEntry b then true
  else if rankOfEntry b < rankOfEntry a then false
  else charListLe (normalizeString a.name) (normalizeString b.name)

def entryRel (a b : DirEntry) : Prop := entryLe a b = true

instance : DecidableRel entryRel := fun a b => inferInstanceAs (Decidable (entryLe a b = true))

/-- The re-sort `ShareFolderClient.list` applies to the decoded entries:
sort by (directory-first rank, normalized name). -/
def clientOrderEntries (es : List DirEntry) : List DirEntry :=
  List.insertionSort entryRel es

/-- Consecutive-pair formalization of the ordering the specification
claims for listings: all Directory entries before all File entries, each
group alphabetical by case-insensitive name. -/
def specPairLe (a b : DirEntry) : Bool :=
  decide (rankOfEntry a < rankOfEntry b) ||
  (decide (rankOfEntry a = rankOfEntry b) &&
    charListLe (toLowerStr a.name) (toLowerStr b.name))

def specOrderedListing : List DirEntry → Bool
  | [] => true
  | [_] => true
  | a :: b :: rest => specPairLe a b && specOrderedListing (b :: rest)

/-- Preconditions under which the PUT write path cannot hit an `ENOTDIR` /
`ENOENT` failure: a non-root target, the filesystem root present as a
directory, and every existing strict ancestor a directory. -/
def writeReady (fs : Fs) (t : FsPath) : Bool :=
  decide (t ≠ []) &&
  (match fsLookup fs ([] : FsPath) with
   | some n => n.isDir
   | none => false) &&
  (List.range t.length).all (fun i =>
    match fsLookup fs (t.take i) with
    | none => true
    | some n => n.isDir)

/-- Preconditions under which `mkdirs` cannot hit an `ENOTDIR` failure:
a non-root target and every existing prefix a directory. -/
def mkdirsReady (fs : Fs) (t : FsPath) : Bool :=
  decide (t ≠ []) &&
  (List.range t.length).all (fun i =>
    match fsLookup fs (t.take (i + 1)) with
    | none => true
    | some n => n.isDir)

def dirNode (c m : Nat) : FsNode := ⟨true, [], c, m⟩

def fileNode (bs : List Nat) (c m : Nat) : FsNode := ⟨false, bs, c, m⟩

/-- A concrete shared root, `/share`. -/
def rootW : List JSStr := ["share".toList]

/-- A concrete filesystem whose `readdir` order lists `b.txt` before `A`. -/
def fsListW : Fs :=
  [(([] : FsPath), dirNode 0 0),
   (["share".toList], dirNode 1 1),
   (["share".toList, "b.txt".toList], fileNode [104, 105] 2 2),
   (["share".toList, "A".toList], dirNode 3 3)]

/-- The listing entries produced for `fsListW` in `readdir` order. -/
def entryBtxt : DirEntry := toDirectoryEntry (fileNode [104, 105] 2 2) "b.txt".toList

def entryAdir : DirEntry := toDirectoryEntry (dirNode 3 3) "A".toList

/-- A filesystem where `/share/a` is a file, so `/a/b` has a non-directory
ancestor inside the share. -/
def fsAncFile : Fs :=
  [(([] : FsPath), dirNode 0 0),
   (["share".toList], dirNode 0 0),
   (["share".toList, "a".toList], fileNode [7] 0 0)]

theorem fsLookup_fsSet (fs : Fs) (p : FsPath) (n : FsNode) (q : FsPath) :
    fsLookup (fsSet fs p n) q = if p = q then some n else fsLookup fs q := by
  induction fs with
  | nil => rfl
  | cons e rest ih =>
    obtain ⟨r, m⟩ := e
    by_cases hrp : r = p
    · subst hrp
      simp only [fsSet, if_pos rfl, fsLookup]
      by_cases hq : r = q
      · simp [hq]
      · simp [hq]
    · simp only [fsSet, if_neg hrp, fsLookup, ih]
      by_cases hq : r = q
      · subst hq
        have : ¬ p = r := fun h => hrp h.symm
        simp [this]
      · simp [hq]

theorem fsLookup_filter_self (f : FsPath × FsNode → Bool) (fs : Fs) (p : FsPath)
    (hf : ∀ n, f (p, n) = false) : fsLookup (fs.filter f) p = none := by
  induction fs with
  | nil => rfl
  | cons e rest ih =>
    obtain ⟨q, m⟩ := e
    rw [List.filter_cons]
    by_cases hq : q = p
    · subst hq
      rw [hf m]
      exact ih
    · cases hfe : f (q, m)
      · exact ih
      · simpa [fsLookup, hq] using ih

theorem fsLookup_removeRecFs_self (fs : Fs) (p : FsPath) :
    fsLookup (removeRecFs fs p) p = none := by
  apply fsLookup_filter_self
  intro n
  simp

theorem fsLookup_unlinkFs_self (fs : Fs) (p : FsPath) :
    fsLookup (unlinkFs fs p) p = none := by
  apply fsLookup_filter_self
  intro n
  simp

theorem mkdirsGo_spec (now : Nat) (l : List FsPath) : ∀ (fs : Fs),
    (∀ q ∈ l, fsLookup fs q = none ∨ ∃ n, fsLookup fs q = some n ∧ n.isDir = true) →
    ∃ fs2, mkdirsGo now fs l = .ok fs2 ∧
      (∀ p n0, fsLookup fs p = some n0 → n0.isDir = true → fsLookup fs2 p = some n0) ∧
      (∀ q ∈ l, ∃ n, fsLookup fs2 q = some n ∧ n.isDir = true ∧
        (fsLookup fs q = none → n = ⟨true, [], now, now⟩)) ∧
      (∀ p, p ∉ l → fsLookup fs2 p = fsLookup fs p) := by
  induction l with
  | nil =>
    intro fs _
    exact ⟨fs, rfl, fun p n0 h _ => h, by simp, fun p _ => rfl⟩
  | cons q rest ih =>
    intro fs h
    rcases h q (by simp) with hq | ⟨n, hn, hdir⟩
    · -- missing: create the directory, then continue on the extended fs
      have hrest : ∀ r ∈ rest,
          fsLookup (fsSet fs q ⟨true, [], now, now⟩) r = none ∨
          ∃ n, fsLookup (fsSet fs q ⟨true, [], now, now⟩) r = some n ∧ n.isDir = true := by
        intro r hr
        rw [fsLookup_fsSet]
        by_cases hqr : q = r
        · exact Or.inr ⟨⟨true, [], now, now⟩, by simp [hqr], rfl⟩
        · simpa [hqr] using h r (by simp [hr])
      obtain ⟨fs2, heq, hpres, hall, hunch⟩ := ih (fsSet fs q ⟨true, [], now, now⟩) hrest
      refine ⟨fs2, ?_, ?_, ?_, ?_⟩
      · simp only [mkdirsGo, hq]
        exact heq
      · intro p n0 hp hpd
        have hqp : ¬ q = p := fun hcontra => by
          subst hcontra
          rw [hq] at hp
          exact Option.noConfusion hp
        exact hpres p n0 (by rw [fsLookup_fsSet]; simp [hqp, hp]) hpd
      · intro r hr
        rcases List.mem_cons.mp hr with hrq | hrrest
        · subst hrq
          refine ⟨⟨true, [], now, now⟩, ?_, rfl, fun _ => rfl⟩
          exact hpres r ⟨true, [], now, now⟩ (by rw [fsLookup_fsSet]; simp) rfl
        · obtain ⟨n2, hn2, hn2d, hn2new⟩ := hall r hrrest
          refine ⟨n2, hn2, hn2d, fun hnone => ?_⟩
          by_cases hqr : q = r
          · subst hqr
            have hlook : fsLookup (fsSet fs q ⟨true, [], now, now⟩) q =
                some ⟨true, [], now, now⟩ := by
              rw [fsLookup_fsSet]
              simp
            have hfin := hpres q ⟨true, [], now, now⟩ hlook rfl
            rw [hn2] at hfin
            exact Option.some.inj hfin
          · apply hn2new
            rw [fsLookup_fsSet]
            simp [hqr, hnone]
      · intro p hp
        have hpq : ¬ q = p := fun hcontra => hp (by simp [hcontra.symm])
        have := hunch p (fun hcontra => hp (by simp [hcontra]))
        rw [this, fsLookup_fsSet]
        simp [hpq]
    · -- already a directory: skip
      have hrest : ∀ r ∈ rest,
          fsLookup fs r = none ∨ ∃ n, fsLookup fs r = some n ∧ n.isDir = true :=
        fun r hr => h r (by simp [hr])
      obtain ⟨fs2, heq, hpres, hall, hunch⟩ := ih fs hrest
      refine ⟨fs2, ?_, hpres, ?_, ?_⟩
      · simp only [mkdirsGo, hn, hdir, if_true]
        exact heq
      · intro r hr
        rcases List.mem_cons.mp hr with hrq | hrrest
        · subst hrq
          exact ⟨n, hpres r n hn hdir, hdir, fun hnone => by rw [hn] at hnone; exact Option.noConfusion hnone⟩
        · exact hall r hrrest
      · intro p hp
        exact hunch p (fun hcontra => hp (by simp [hcontra]))

theorem writeFileFs_ok (now : Nat) (fs : Fs) (t : FsPath) (body : List Nat)
    (htne : t ≠ [])
    (hpar : ∃ n, fsLookup fs t.dropLast = some n ∧ n.isDir = true)
    (hnotdir : ∀ st, fsLookup fs t = some st → st.isDir = false) :
    ∃ st, writeFileFs now fs t body = .ok (fsSet fs t st) ∧
      st.isDir = false ∧ st.content = body ∧ st.mtime = now := by
  obtain ⟨pn, hpn, hpd⟩ := hpar
  have hlast : ∃ a, t.getLast? = some a := by
    cases t with
    | nil => exact absurd rfl htne
    | cons x xs => exact ⟨(x :: xs).getLast (by simp), List.getLast?_eq_getLast _ _⟩
  obtain ⟨a, ha⟩ := hlast
  unfold writeFileFs
  rw [ha, hpn]
  simp only [hpd, if_true]
  cases hht : fsLookup fs t with
  | none => exact ⟨⟨false, body, now, now⟩, rfl, rfl, rfl, rfl⟩
  | some n =>
    have hnd := hnotdir n hht
    refine ⟨⟨false, body, n.ctime, now⟩, ?_, rfl, rfl, rfl⟩
    simp [hnd]

theorem resolveSegsGo_canonical (root : List JSStr)
    (h : ∀ s ∈ root, s ≠ [] ∧ s ≠ ['.'] ∧ s ≠ ['.', '.']) :
    ∀ (stack rest : List JSStr),
      resolveSegsGo stack (root ++ rest) = resolveSegsGo (root.reverse ++ stack) rest := by
  induction root with
  | nil => intro stack rest; simp
  | cons s ss ih =>
    intro stack rest
    obtain ⟨h1, h2, h3⟩ := h s (by simp)
    have hcond : ¬ (s = [] ∨ s = ['.']) := by
      rintro (hc | hc)
      · exact h1 hc
      · exact h2 hc
    have ihh : ∀ q ∈ ss, q ≠ [] ∧ q ≠ ['.'] ∧ q ≠ ['.', '.'] :=
      fun q hq => h q (by simp [hq])
    simp only [List.cons_append, resolveSegsGo, if_neg hcond, if_neg h3]
    refine (ih ihh (s :: stack) rest).trans ?_
    congr 1
    simp

theorem charListLe_head_le (a b : Char) (as bs : JSStr)
    (h : charListLe (a :: as) (b :: bs) = true) : a.toNat ≤ b.toNat := by
  by_cases h1 : a.toNat < b.toNat
  · omega
  · by_cases h2 : b.toNat < a.toNat
    · rw [charListLe, if_neg h1, if_pos h2] at h
      exact Bool.noConfusion h
    · omega

theorem charListLe_total : ∀ a b : JSStr, charListLe a b = true ∨ charListLe b a = true
  | [], _ => Or.inl rfl
  | _ :: _, [] => Or.inr rfl
  | a :: as, b :: bs => by
    by_cases h1 : a.toNat < b.toNat
    · left
      rw [charListLe, if_pos h1]
    · by_cases h2 : b.toNat < a.toNat
      · right
        rw [charListLe, if_pos h2]
      · rcases charListLe_total as bs with h | h
        · left
          rw [charListLe, if_neg h1, if_neg h2]
          exact h
        · right
          rw [charListLe, if_neg h2, if_neg h1]
          exact h

theorem charListLe_trans : ∀ a b c : JSStr,
    charListLe a b = true → charListLe b c = true → charListLe a c = true
  | [], _, _ => fun _ _ => rfl
  | _ :: _, [], _ => fun h _ => Bool.noConfusion h
  | _ :: _, _ :: _, [] => fun _ h => Bool.noConfusion h
  | a :: as, b :: bs, c :: cs => by
    intro h1 h2
    have hab := charListLe_head_le a b as bs h1
    have hbc := charListLe_head_le b c bs cs h2
    by_cases hac : a.toNat < c.toNat
    · rw [charListLe, if_pos hac]
    · have heq : a.toNat = c.toNat := by omega
      have heab : a.toNat = b.toNat := by omega
      have hnab : ¬ a.toNat < b.toNat := by omega
      have hnba : ¬ b.toNat < a.toNat := by omega
      have hnbc : ¬ b.toNat < c.toNat := by omega
      have hncb : ¬ c.toNat < b.toNat := by omega
      have hnca : ¬ c.toNat < a.toNat := by omega
      rw [charListLe, if_neg hnab, if_neg hnba] at h1
      rw [charListLe, if_neg hnbc, if_neg hncb] at h2
      rw [charListLe, if_neg hac, if_neg hnca]
      exact charListLe_trans as bs cs h1 h2

theorem entryLe_total (a b : DirEntry) : entryRel a b ∨ entryRel b a := by
  unfold entryRel entryLe
  by_cases h1 : rankOfEntry a < rankOfEntry b
  · left
    rw [if_pos h1]
  · by_cases h2 : rankOfEntry b < rankOfEntry a
    · right
      rw [if_pos h2]
    · rcases charListLe_total (normalizeString a.name) (normalizeString b.name) with h | h
      · left
        rw [if_neg h1, if_neg h2]
        exact h
      · right
        rw [if_neg h2, if_neg h1]
        exact h

theorem entryLe_rank_le (a b : DirEntry) (h : entryRel a b) :
    rankOfEntry a ≤ rankOfEntry b := by
  unfold entryRel entryLe at h
  by_cases h1 : rankOfEntry a < rankOfEntry b
  · omega
  · by_cases h2 : rankOfEntry b < rankOfEntry a
    · rw [if_neg h1, if_pos h2] at h
      exact Bool.noConfusion h
    · omega

theorem entryLe_trans (a b c : DirEntry) (h1 : entryRel a b) (h2 : entryRel b c) :
    entryRel a c := by
  have hab := entryLe_rank_le a b h1
  have hbc := entryLe_rank_le b c h2
  unfold entryRel entryLe at *
  by_cases hac : rankOfEntry a < rankOfEntry c
  · rw [if_pos hac]
  · have hnab : ¬ rankOfEntry a < rankOfEntry b := by omega
    have hnba : ¬ rankOfEntry b < rankOfEntry a := by omega
    have hnbc : ¬ rankOfEntry b < rankOfEntry c := by omega
    have hncb : ¬ rankOfEntry c < rankOfEntry b := by omega
    have hnca : ¬ rankOfEntry c < rankOfEntry a := by omega
    rw [if_neg hnab, if_neg hnba] at h1
    rw [if_neg hnbc, if_neg hncb] at h2
    rw [if_neg hac, if_neg hnca]
    exact charListLe_trans _ _ _ h1 h2

/-- C1: for every client-supplied request path and every verb (GET, POST, PUT,
DELETE), if normalizing the path and resolving it against the shared root
yields an absolute path that is neither the root nor a strict descendant of
`root + '/'` (that is, `IS_OUTSIDE` holds — in particular for `..` segments
escaping the root), the handler answers 400, leaves the filesystem unchanged
and performs no filesystem call. -/
theorem c1_path_containment_rejects_before_fs
    (root : List JSStr) (fs : Fs) (reqPath : JSStr) (infoQ : Option JSStr)
    (body : List Nat) (now : Nat)
    (h : IS_OUTSIDE root (normalizePath reqPath) = true) :
    getHandler root fs reqPath infoQ = ⟨some (statusOnly 400), fs, []⟩ ∧
    postHandler root fs reqPath now = ⟨some (statusOnly 400), fs, []⟩ ∧
    putHandler root fs reqPath body now = ⟨some (statusOnly 400), fs, []⟩ ∧
    deleteHandler root fs reqPath = ⟨some (statusOnly 400), fs, []⟩ := by
  refine ⟨?_, ?_, ?_, ?_⟩ <;>
    simp [getHandler, postHandler, putHandler, deleteHandler, h]

/-- C1 witness: `/../../etc/passwd` under root `/share` is rejected with 400
and an empty filesystem-operation log. -/
theorem c1_witness :
    getHandler ["share".toList] [] "/../../etc/passwd".toList none =
      ⟨some (statusOnly 400), [], []⟩ :=
  (c1_path_containment_rejects_before_fs ["share".toList] [] "/../../etc/passwd".toList
    none [] 0 (by decide)).1

/-- C2: in the allow-list host variant, when the configured allow-list is
non-empty and the source address is neither loopback nor contained in any
configured CIDR range, the IP-check middleware ends the socket (`hangup`:
no HTTP status or body is ever written); when the allow-list is empty,
every source address passes the gate. -/
theorem c2_allowlist_gate (allowed : List Cidr) (remote : Nat)
    (hne : allowed ≠ [])
    (hlb : isLoopbackV4 remote = false)
    (hc : ∀ c ∈ allowed, cidrContains c remote = false) :
    ipCheckGate allowed remote = GateOut.hangup ∧
    (∀ r2 : Nat, ipCheckGate [] r2 = GateOut.next) := by
  constructor
  · have h1 : ¬ allowed.length < 1 := by
      cases allowed with
      | nil => exact absurd rfl hne
      | cons a rest => simp
    have h2 : allowed.any (fun a => cidrContains a remote) = false := by
      rw [List.any_eq_false]
      intro a ha
      simp [hc a ha]
    simp [ipCheckGate, h1, hlb, h2]
  · intro r2
    rfl

/-- C2 witness: address 10.0.0.5 against the single range 192.168.0.0/24
gets its connection terminated. -/
theorem c2_witness :
    ipCheckGate [⟨3232235520, 24⟩] 167772165 = GateOut.hangup :=
  (c2_allowlist_gate [⟨3232235520, 24⟩] 167772165 (by decide) (by decide) (by decide)).1

/-- C9: the request paths `""`, `"."` and `"/"` all normalize to the
canonical path `/`, joining that with the root resolves to exactly the root
directory, and each of the three inputs passes the containment check. -/
theorem c9_trivial_paths_resolve_to_root (root : List JSStr) (h : CanonicalRoot root) :
    normalizePath [] = ['/'] ∧ normalizePath ['.'] = ['/'] ∧ normalizePath ['/'] = ['/'] ∧
    resolveJoin root ['/'] = renderAbs root ∧
    IS_OUTSIDE root [] = false ∧ IS_OUTSIDE root ['.'] = false ∧ IS_OUTSIDE root ['/'] = false := by
  have hres : resolveJoin root ['/'] = renderAbs root := by
    unfold resolveJoin resolveSegs
    rw [resolveSegsGo_canonical root h [] (splitSlash ['/'])]
    have hsplit : splitSlash ['/'] = [[], []] := rfl
    rw [hsplit]
    simp [resolveSegsGo]
  have hout : ∀ x : JSStr, normalizePath x = ['/'] → IS_OUTSIDE root x = false := by
    intro x hx
    simp only [IS_OUTSIDE]
    rw [hx, hres]
    simp
  exact ⟨rfl, rfl, rfl, hres, hout [] rfl, hout ['.'] rfl, hout ['/'] rfl⟩

/-- C9 witness: instantiation at the concrete root `/share`. -/
theorem c9_witness :
    resolveJoin ["share".toList] ['/'] = renderAbs ["share".toList] :=
  (c9_trivial_paths_resolve_to_root ["share".toList] (by decide)).2.2.2.1

/-- C4 counterexample: the current host's GET handler emits directory
entries in `readdir` order without sorting — a filesystem whose `readdir`
yields `[b.txt (file), A (dir)]` produces the listing `[b.txt, A]`, which
violates the claimed directories-first, case-insensitive ordering. -/
theorem c4_counterexample :
    listingOf (getHandler rootW fsListW "/".toList none) = some [entryBtxt, entryAdir] ∧
    specOrderedListing [entryBtxt, entryAdir] = false := by
  constructor
  · rfl
  · rfl

/-- C4 (amended): the ordering contract is enforced by the client's list
operation, which re-sorts the decoded entries: the result is sorted with all
Directory entries before all File entries and case-insensitively by
normalized name within each group, it is a permutation of its input, and the
claim's example `{b.txt (file), A (dir)}` comes back as `[A, b.txt]`. -/
theorem c4_ordering_amended (es : List DirEntry) :
    List.Sorted entryRel (clientOrderEntries es) ∧
    (clientOrderEntries es).Perm es ∧
    clientOrderEntries [entryBtxt, entryAdir] = [entryAdir, entryBtxt] := by
  refine ⟨?_, List.perm_insertionSort entryRel es, by decide⟩
  exact @List.sorted_insertionSort DirEntry entryRel _ ⟨entryLe_total⟩ ⟨entryLe_trans⟩ es

/-- C8 counterexample: a 403 response to `upload` produces the generic
`Unexpected response '403'` error, not the Forbidden error the claim's fixed
mapping demands (the client source has no 403 case). -/
theorem c8_counterexample :
    uploadOutcome 403 = ClientOutcome.errUnexpected 403 ∧
    specClientOutcome ClientVerb.vupload 403 = ClientOutcome.errForbidden ∧
    uploadOutcome 403 ≠ specClientOutcome ClientVerb.vupload 403 := by decide

/-- C8 (amended): the client's response interpretation maps 400 to
InvalidPath, 401 to Unauthorized and 404 to NotFound at the transport
callback; among resolved codes, `upload` treats 200 as success and 409 as
the is-a-directory Conflict, `remove` treats only 200 as success, `list` and
`download` treat 200/204 as success after their entry-type header checks;
every other code — 403 included — becomes a generic UnexpectedResponse
error carrying the code. -/
theorem c8_client_mapping_amended (code : Nat) (hdrD hdrF : JSStr)
    (hnot : code ≠ 200 ∧ code ≠ 204 ∧ code ≠ 400 ∧ code ≠ 401 ∧ code ≠ 404 ∧ code ≠ 409)
    (hd : normalizeString hdrD = ['d'])
    (hf : normalizeString hdrF = ['f']) :
    requestCallback 400 = .errInvalidPath ∧
    requestCallback 401 = .errUnauthorized ∧
    requestCallback 404 = .errNotFound ∧
    uploadOutcome 200 = .success 200 ∧
    uploadOutcome 409 = .errIsDirectory ∧
    uploadOutcome 403 = .errUnexpected 403 ∧
    uploadOutcome code = .errUnexpected code ∧
    removeOutcome 200 = .success 200 ∧
    removeOutcome 409 = .errUnexpected 409 ∧
    removeOutcome code = .errUnexpected code ∧
    listOutcome 200 hdrD = .success 200 ∧
    listOutcome 204 hdrD = .success 204 ∧
    listOutcome code hdrD = .errUnexpected code ∧
    downloadOutcome 200 hdrF = .success 200 ∧
    downloadOutcome 204 hdrF = .success 204 ∧
    downloadOutcome code hdrF = .errUnexpected code := by
  obtain ⟨h200, h204, h400, h401, h404, h409⟩ := hnot
  refine ⟨rfl, rfl, rfl, rfl, rfl, rfl, ?_, rfl, rfl, ?_, ?_, ?_, ?_, ?_, ?_, ?_⟩ <;>
    simp [uploadOutcome, removeOutcome, listOutcome, downloadOutcome, requestCallback,
      h200, h204, h400, h401, h404, h409, hd, hf]

/-- C8 witness -/
theorem c8_witness : uploadOutcome 500 = ClientOutcome.errUnexpected 500 :=
  (c8_client_mapping_amended 500 ['d'] ['f'] (by decide) (by decide) (by decide)).2.2.2.2.2.2.1

/-- C3 counterexample: with a missing Authorization header (or one not
using the Basic scheme) the middleware leaves both credential variables
undefined and hands `(undefined, undefined)` to the validator — not the
empty-string pair `("", "")` the claim states. -/
theorem c3_counterexample :
    authArgs (fun s => s) none = (none, none) ∧
    ¬ (authArgs (fun s => s) none = (some [], some [])) ∧
    authArgs (fun s => s) (some "Bearer xyz".toList) = (none, none) := by
  refine ⟨rfl, by decide, rfl⟩

/-- C3 (amended): a missing or malformed Authorization header leaves the
username/password pair undefined, and the pair is handed to the configured
validator exactly like any other pair (never special-cased to auto-fail
before the validator is called); whenever the validator's verdict is falsy,
the pipeline answers 401 with a `WWW-Authenticate: Basic realm=...`
challenge carrying the configured realm, and no operation handler runs. -/
theorem c3_auth_gate_amended
    (decode : JSStr → JSStr) (root : List JSStr) (fs : Fs) (req : Request) (now : Nat)
    (rv : Option JsVal) (cw : JsVal) (realmOpt : Option JSStr)
    (V : Option JSStr → Option JSStr → JsVal)
    (hip : ipGateV rv = GateOut.next)
    (hfail : toBooleanSafe
        (V (authArgs decode req.authHeader).1 (authArgs decode req.authHeader).2) false = false) :
    (jstartsWith (toLowerStr (trimStr (toStringSafeOpt req.authHeader))) "basic ".toList = false →
      authArgs decode req.authHeader = (none, none)) ∧
    processRequest ⟨rv, some V, cw, realmOpt⟩ decode root fs req now =
      PipeOut.replied
        (some ⟨401, [("WWW-Authenticate".toList, "Basic realm=".toList ++ trimStr (realmOf realmOpt))], .empty⟩)
        false fs [] := by
  constructor
  · intro hm
    simp only [authArgs, hm, Bool.false_eq_true, if_false]
  · unfold processRequest
    rw [hip]
    unfold authGate
    simp only [hfail, Bool.false_eq_true, if_false]

/-- C3 witness: a GET with no Authorization header against a host whose
validator rejects everything is answered 401 with the default realm. -/
theorem c3_witness :
    processRequest ⟨none, some (fun _ _ => JsVal.jbool false), JsVal.undef, none⟩
        (fun s => s) rootW fsListW ⟨"GET".toList, "/".toList, none, none, []⟩ 0 =
      PipeOut.replied
        (some ⟨401, [("WWW-Authenticate".toList, "Basic realm=".toList ++ trimStr (realmOf none))], .empty⟩)
        false fsListW [] :=
  (c3_auth_gate_amended (fun s => s) rootW fsListW ⟨"GET".toList, "/".toList, none, none, []⟩ 0
    none JsVal.undef none (fun _ _ => JsVal.jbool false) rfl rfl).2

/-- C10: when the `canWrite` option is absent, null or otherwise not
truthy, every DELETE, PATCH, POST or PUT request that passed the IP and
credential gates is answered 403 before any operation handler runs, while
GET requests are never rejected by the read-only gate. -/
theorem c10_read_only_default
    (decode : JSStr → JSStr) (root : List JSStr) (fs : Fs) (req : Request) (now : Nat)
    (rv : Option JsVal) (av : Option (Option JSStr → Option JSStr → JsVal))
    (cw : JsVal) (realmOpt : Option JSStr)
    (hcw : toBooleanSafe cw false = false)
    (hip : ipGateV rv = GateOut.next)
    (hauth : authGate decode (realmOf realmOpt) av req.authHeader = GateOut.next)
    (hm : normalizeString req.method = "delete".toList ∨ normalizeString req.method = "patch".toList ∨
          normalizeString req.method = "post".toList ∨ normalizeString req.method = "put".toList) :
    processRequest ⟨rv, av, cw, realmOpt⟩ decode root fs req now =
      PipeOut.replied (some (statusOnly 403)) false fs [] ∧
    (∀ (cw2 : JsVal) (m : JSStr), normalizeString m = "get".toList → roGate cw2 m = GateOut.next) := by
  constructor
  · unfold processRequest
    rw [hip, hauth]
    unfold roGate
    rw [hcw]
    rcases hm with h | h | h | h <;> simp [h]
  · intro cw2 m hm2
    unfold roGate
    cases hb : toBooleanSafe cw2 false
    · simp [hm2]
    · simp

/-- C10 witness: a PUT against a host with `canWrite` undefined is
answered 403 without running a handler. -/
theorem c10_witness :
    processRequest ⟨none, none, JsVal.undef, none⟩ (fun s => s) rootW fsListW
        ⟨"PUT".toList, "/x".toList, none, none, [1]⟩ 0 =
      PipeOut.replied (some (statusOnly 403)) false fsListW [] :=
  (c10_read_only_default (fun s => s) rootW fsListW ⟨"PUT".toList, "/x".toList, none, none, [1]⟩ 0
    none none JsVal.undef none rfl rfl rfl (by decide)).1

theorem fsLookup_of_not_exists (fs : Fs) (p : FsPath) (h : fsExists fs p = false) :
    fsLookup fs p = none := by
  unfold fsExists at h
  cases hl : fsLookup fs p
  · rfl
  · rw [hl] at h
    exact Bool.noConfusion h

theorem fsLookup_of_exists (fs : Fs) (p : FsPath) (h : fsExists fs p = true) :
    ∃ n, fsLookup fs p = some n := by
  unfold fsExists at h
  cases hl : fsLookup fs p
  · rw [hl] at h
    exact Bool.noConfusion h
  · exact ⟨_, rfl⟩

theorem take_ne_of_lt (t : FsPath) (i : Nat) (hi : i < t.length) : t.take i ≠ t := by
  intro h
  have := congrArg List.length h
  simp only [List.length_take] at this
  omega

/-- C7: for a contained, non-root DELETE target: a missing path yields 404
with no mutation; an existing path is removed — recursively when it is a
directory — and the response is 200 carrying the entry captured from the
pre-deletion stat (size, timestamps and type); a path resolving to the root
or outside it yields 400. -/
theorem c7_delete_pre_deletion_entry
    (root : List JSStr) (fs : Fs) (reqPath : JSStr) (t : FsPath)
    (hin : IS_OUTSIDE root (normalizePath reqPath) = false)
    (hnr : (normalizePath reqPath == ['/']) = false)
    (ht : t = sanitizedTarget root (normalizePath reqPath)) :
    (fsLookup fs t = none →
      deleteHandler root fs reqPath = ⟨some (statusOnly 404), fs, [.exCheck t]⟩) ∧
    (∀ n, fsLookup fs t = some n →
      deleteHandler root fs reqPath =
        ⟨some ⟨200, [], .entry (toDirectoryEntry n (lastName t))⟩,
         if n.isDir then removeRecFs fs t else unlinkFs fs t,
         [.exCheck t, .statOp t, if n.isDir then FsOp.removeOp t else FsOp.unlinkOp t]⟩ ∧
      fsLookup (if n.isDir then removeRecFs fs t else unlinkFs fs t) t = none) ∧
    (∀ rp, IS_OUTSIDE root (normalizePath rp) = true ∨ (normalizePath rp == ['/']) = true →
      deleteHandler root fs rp = ⟨some (statusOnly 400), fs, []⟩) := by
  subst ht
  have hguard : (IS_OUTSIDE root (normalizePath reqPath) || (normalizePath reqPath == ['/'])) = false := by
    rw [hin, hnr]
    rfl
  refine ⟨?_, ?_, ?_⟩
  · intro hnone
    simp only [deleteHandler, hguard, Bool.false_eq_true, if_false, hnone]
  · intro n hn
    constructor
    · simp only [deleteHandler, hguard, Bool.false_eq_true, if_false, hn]
    · cases hd : n.isDir
      · simp only [Bool.false_eq_true, if_false]
        exact fsLookup_unlinkFs_self fs _
      · simp only [if_true]
        exact fsLookup_removeRecFs_self fs _
  · intro rp hrp
    have hguard2 : (IS_OUTSIDE root (normalizePath rp) || (normalizePath rp == ['/'])) = true := by
      rcases hrp with h | h <;> rw [h] <;> simp
    simp only [deleteHandler, hguard2, if_true]

/-- C7 witness: deleting the existing directory `/A` returns 200 with the
pre-deletion Directory entry and removes the subtree. -/
theorem c7_witness :
    deleteHandler rootW fsListW "/A".toList =
      ⟨some ⟨200, [], .entry (toDirectoryEntry (dirNode 3 3) "A".toList)⟩,
       if (dirNode 3 3).isDir then removeRecFs fsListW ["share".toList, "A".toList]
       else unlinkFs fsListW ["share".toList, "A".toList],
       [.exCheck ["share".toList, "A".toList], .statOp ["share".toList, "A".toList],
        if (dirNode 3 3).isDir then FsOp.removeOp ["share".toList, "A".toList]
        else FsOp.unlinkOp ["share".toList, "A".toList]]⟩ :=
  ((c7_delete_pre_deletion_entry rootW fsListW "/A".toList ["share".toList, "A".toList]
    (by decide) (by decide) (by decide)).2.1 (dirNode 3 3) (by decide)).1

/-- C6 counterexample: POST `/a/b` when `/share/a` is an existing file is
contained, non-root and the target does not exist, yet `mkdirs` fails on the
file ancestor and the handler produces no response at all (unhandled
rejection) and no 200 — the claim's success branch does not hold there. -/
theorem c6_counterexample :
    IS_OUTSIDE rootW (normalizePath "/a/b".toList) = false ∧
    (normalizePath "/a/b".toList == ['/']) = false ∧
    fsExists fsAncFile (sanitizedTarget rootW (normalizePath "/a/b".toList)) = false ∧
    (postHandler rootW fsAncFile "/a/b".toList 5).resp = none ∧
    (postHandler rootW fsAncFile "/a/b".toList 5).fs = fsAncFile := by decide

/-- C6 (amended): for a contained, non-root POST target: if the path
already exists the response is 409 and the filesystem is unchanged; if it
does not exist and every existing prefix of it is a directory, the directory
is created including intermediate segments and the response is 200 with the
encoded new entry, existing directories being left untouched; a root or
outside-root path yields 400. -/
theorem c6_create_directory_amended
    (root : List JSStr) (fs : Fs) (reqPath : JSStr) (now : Nat) (t : FsPath)
    (hin : IS_OUTSIDE root (normalizePath reqPath) = false)
    (hnr : (normalizePath reqPath == ['/']) = false)
    (ht : t = sanitizedTarget root (normalizePath reqPath)) :
    (fsExists fs t = true →
      postHandler root fs reqPath now = ⟨some (statusOnly 409), fs, [.exCheck t]⟩) ∧
    (fsExists fs t = false → mkdirsReady fs t = true →
      (postHandler root fs reqPath now).resp =
          some ⟨200, [], .entry (toDirectoryEntry ⟨true, [], now, now⟩ (lastName t))⟩ ∧
        fsLookup (postHandler root fs reqPath now).fs t = some ⟨true, [], now, now⟩ ∧
        (∀ i, i < t.length →
          ∃ n, fsLookup (postHandler root fs reqPath now).fs (t.take (i + 1)) = some n ∧
            n.isDir = true) ∧
        (∀ p n0, fsLookup fs p = some n0 → n0.isDir = true →
          fsLookup (postHandler root fs reqPath now).fs p = some n0)) ∧
    (∀ rp, IS_OUTSIDE root (normalizePath rp) = true ∨ (normalizePath rp == ['/']) = true →
      postHandler root fs rp now = ⟨some (statusOnly 400), fs, []⟩) := by
  subst ht
  have hguard : (IS_OUTSIDE root (normalizePath reqPath) || (normalizePath reqPath == ['/'])) = false := by
    rw [hin, hnr]
    rfl
  set t := sanitizedTarget root (normalizePath reqPath) with httdef
  refine ⟨?_, ?_, ?_⟩
  · intro hex
    simp only [postHandler, hguard, Bool.false_eq_true, if_false, hex, if_true]
  · intro hnex hready
    rw [mkdirsReady, Bool.and_eq_true] at hready
    obtain ⟨htne0, hall0⟩ := hready
    have htne : t ≠ [] := of_decide_eq_true htne0
    have hnone : fsLookup fs t = none := fsLookup_of_not_exists fs t hnex
    have hcond : ∀ q ∈ (List.range t.length).map (fun i => t.take (i + 1)),
        fsLookup fs q = none ∨ ∃ n, fsLookup fs q = some n ∧ n.isDir = true := by
      intro q hq
      obtain ⟨i, hi, rfl⟩ := List.mem_map.mp hq
      have hi2 := List.mem_range.mp hi
      have := List.all_eq_true.mp hall0 i hi
      cases hl : fsLookup fs (t.take (i + 1)) with
      | none => exact Or.inl rfl
      | some n =>
        rw [hl] at this
        exact Or.inr ⟨n, rfl, this⟩
    obtain ⟨fs2, heq, hpres, hall, hunch⟩ :=
      mkdirsGo_spec now ((List.range t.length).map (fun i => t.take (i + 1))) fs hcond
    have hlen : 0 < t.length := List.length_pos.mpr htne
    have htmem : t ∈ (List.range t.length).map (fun i => t.take (i + 1)) := by
      refine List.mem_map.mpr ⟨t.length - 1, List.mem_range.mpr (by omega), ?_⟩
      have h1 : t.length - 1 + 1 = t.length := by omega
      rw [h1, List.take_length]
    obtain ⟨nt, hnt, hntd, hntnew⟩ := hall t htmem
    have hntval : nt = ⟨true, [], now, now⟩ := hntnew hnone
    subst hntval
    have hph : postHandler root fs reqPath now =
        ⟨some ⟨200, [], .entry (toDirectoryEntry ⟨true, [], now, now⟩ (lastName t))⟩, fs2,
         [.exCheck t, .mkdirsOp t, .statOp t]⟩ := by
      simp only [postHandler, hguard, Bool.false_eq_true, if_false, ← httdef, hnex,
        mkdirsFs, heq, hnt]
    rw [hph]
    refine ⟨rfl, hnt, ?_, ?_⟩
    · intro i hi
      obtain ⟨n2, hn2, hn2d, _⟩ := hall (t.take (i + 1))
        (List.mem_map.mpr ⟨i, List.mem_range.mpr hi, rfl⟩)
      exact ⟨n2, hn2, hn2d⟩
    · intro p n0 hp hpd
      exact hpres p n0 hp hpd
  · intro rp hrp
    have hguard2 : (IS_OUTSIDE root (normalizePath rp) || (normalizePath rp == ['/'])) = true := by
      rcases hrp with h | h <;> rw [h] <;> simp
    simp only [postHandler, hguard2, if_true]

/-- C6 witness: creating `/A` when it already exists returns 409 with no
mutation. -/
theorem c6_witness :
    postHandler rootW fsListW "/A".toList 9 =
      ⟨some (statusOnly 409), fsListW, [.exCheck ["share".toList, "A".toList]]⟩ :=
  (c6_create_directory_amended rootW fsListW "/A".toList 9 ["share".toList, "A".toList]
    (by decide) (by decide) (by decide)).1 (by decide)


/-- C5 counterexample: PUT `/a/b` when `/share/a` is an existing file is
contained and non-root, and the target is not an existing directory, yet the
write fails on the file ancestor and the handler produces no response at all
— not the claimed 200 with post-write metadata. -/
theorem c5_counterexample :
    IS_OUTSIDE rootW (normalizePath "/a/b".toList) = false ∧
    (normalizePath "/a/b".toList == ['/']) = false ∧
    fsLookup fsAncFile (sanitizedTarget rootW (normalizePath "/a/b".toList)) = none ∧
    (putHandler rootW fsAncFile "/a/b".toList [1, 2] 5).resp = none ∧
    (putHandler rootW fsAncFile "/a/b".toList [1, 2] 5).fs = fsAncFile := by decide

/-- C5 (amended): for a contained, non-root PUT target: if the target
exists and is a directory the response is 409 and nothing is written;
otherwise — provided every existing strict ancestor of the target is a
directory and the filesystem root is present — missing intermediate
directories are created, the full body replaces the file's content, and the
response is 200 with an encoded entry whose size equals the body length. -/
theorem c5_write_file_amended
    (root : List JSStr) (fs : Fs) (reqPath : JSStr) (body : List Nat) (now : Nat) (t : FsPath)
    (hin : IS_OUTSIDE root (normalizePath reqPath) = false)
    (hnr : (normalizePath reqPath == ['/']) = false)
    (ht : t = sanitizedTarget root (normalizePath reqPath)) :
    (∀ st, fsLookup fs t = some st → st.isDir = true →
      putHandler root fs reqPath body now = ⟨some (statusOnly 409), fs, [.exCheck t, .statOp t]⟩) ∧
    ((∀ st, fsLookup fs t = some st → st.isDir = false) → writeReady fs t = true →
      ∃ st fs1,
        st.isDir = false ∧ st.content = body ∧
        (toDirectoryEntry st (lastName t)).size = body.length ∧
        (putHandler root fs reqPath body now).resp =
          some ⟨200, [], .entry (toDirectoryEntry st (lastName t))⟩ ∧
        (putHandler root fs reqPath body now).fs = fsSet fs1 t st ∧
        fsLookup (fsSet fs1 t st) t = some st ∧
        (∃ pn, fsLookup (fsSet fs1 t st) t.dropLast = some pn ∧ pn.isDir = true) ∧
        (fsExists fs t.dropLast = false → ∀ i, 0 < i → i < t.length →
          ∃ n, fsLookup (fsSet fs1 t st) (t.take i) = some n ∧ n.isDir = true)) ∧
    (∀ rp, IS_OUTSIDE root (normalizePath rp) = true ∨ (normalizePath rp == ['/']) = true →
      putHandler root fs rp body now = ⟨some (statusOnly 400), fs, []⟩) := by
  have hguard : (IS_OUTSIDE root (normalizePath reqPath) || (normalizePath reqPath == ['/'])) = false := by
    rw [hin, hnr]
    rfl
  refine ⟨?_, ?_, ?_⟩
  · intro st hst hd
    simp only [putHandler, hguard, Bool.false_eq_true, if_false, ← ht, hst, hd, if_true]
  · intro hnd hready
    rw [writeReady, Bool.and_eq_true, Bool.and_eq_true] at hready
    obtain ⟨⟨htne0, hroot0⟩, hall0⟩ := hready
    have htne : t ≠ [] := of_decide_eq_true htne0
    have hlen : 0 < t.length := List.length_pos.mpr htne
    have hrootdir : ∃ rn, fsLookup fs ([] : FsPath) = some rn ∧ rn.isDir = true := by
      cases hl : fsLookup fs ([] : FsPath) with
      | none => rw [hl] at hroot0; exact Bool.noConfusion hroot0
      | some rn => rw [hl] at hroot0; exact ⟨rn, rfl, hroot0⟩
    have hpfxAll : ∀ i, i < t.length →
        fsLookup fs (t.take i) = none ∨ ∃ n, fsLookup fs (t.take i) = some n ∧ n.isDir = true := by
      intro i hi
      have := List.all_eq_true.mp hall0 i (List.mem_range.mpr hi)
      cases hl : fsLookup fs (t.take i) with
      | none => exact Or.inl rfl
      | some n => rw [hl] at this; exact Or.inr ⟨n, rfl, this⟩
    have hdirtake : t.dropLast = t.take (t.length - 1) := List.dropLast_eq_take t
    have hdirne : t.dropLast ≠ t := by
      intro h
      have := congrArg List.length h
      rw [List.length_dropLast] at this
      omega
    have key : ∀ ops0 : List FsOp, ∃ st fs1 ops2,
        st.isDir = false ∧ st.content = body ∧
        putWrite fs t body now ops0 =
          ⟨some ⟨200, [], .entry (toDirectoryEntry st (lastName t))⟩, fsSet fs1 t st, ops2⟩ ∧
        (∃ pn, fsLookup (fsSet fs1 t st) t.dropLast = some pn ∧ pn.isDir = true) ∧
        (fsExists fs t.dropLast = false → ∀ i, 0 < i → i < t.length →
          ∃ n, fsLookup (fsSet fs1 t st) (t.take i) = some n ∧ n.isDir = true) := by
      intro ops0
      cases hdex : fsExists fs t.dropLast with
      | true =>
        obtain ⟨pn, hpn⟩ := fsLookup_of_exists fs t.dropLast hdex
        have hpd : pn.isDir = true := by
          rcases hpfxAll (t.length - 1) (by omega) with hc | ⟨n2, hn2, hn2d⟩
          · rw [← hdirtake] at hc
            rw [hc] at hpn
            exact Option.noConfusion hpn
          · rw [← hdirtake] at hn2
            rw [hn2] at hpn
            cases hpn
            exact hn2d
        obtain ⟨st, hw, hstd, hstc, _⟩ :=
          writeFileFs_ok now fs t body htne ⟨pn, hpn, hpd⟩ hnd
        have hpweq : putWrite fs t body now ops0 =
            ⟨some ⟨200, [], .entry (toDirectoryEntry st (lastName t))⟩, fsSet fs t st,
             ops0 ++ [.exCheck t.dropLast, .writeOp t, .statOp t]⟩ := by
          simp only [putWrite, hdex, if_true, hw]
          rw [fsLookup_fsSet, if_pos rfl]
        refine ⟨st, fs, ops0 ++ [.exCheck t.dropLast, .writeOp t, .statOp t],
          hstd, hstc, hpweq, ⟨pn, ?_, hpd⟩, ?_⟩
        · rw [fsLookup_fsSet]
          rw [if_neg (fun h => hdirne h.symm)]
          exact hpn
        · intro hcontra
          exact Bool.noConfusion hcontra
      | false =>
        have hcond : ∀ q ∈ (List.range t.dropLast.length).map (fun i => t.dropLast.take (i + 1)),
            fsLookup fs q = none ∨ ∃ n, fsLookup fs q = some n ∧ n.isDir = true := by
          intro q hq
          obtain ⟨i, hi, rfl⟩ := List.mem_map.mp hq
          have hi2 := List.mem_range.mp hi
          rw [List.length_dropLast] at hi2
          have hq2 : t.dropLast.take (i + 1) = t.take (i + 1) := by
            rw [hdirtake, List.take_take]
            have hm : (i + 1) ⊓ (t.length - 1) = i + 1 := by omega
            rw [hm]
          rw [hq2]
          exact hpfxAll (i + 1) (by omega)
        obtain ⟨fs1, heq, hpres, hall, hunch⟩ :=
          mkdirsGo_spec now ((List.range t.dropLast.length).map (fun i => t.dropLast.take (i + 1)))
            fs hcond
        have hmemlen : ∀ q ∈ (List.range t.dropLast.length).map (fun i => t.dropLast.take (i + 1)),
            q.length ≤ t.length - 1 := by
          intro q hq
          obtain ⟨i, hi, rfl⟩ := List.mem_map.mp hq
          simp only [List.length_take, List.length_dropLast]
          omega
        have htnotmem : t ∉ (List.range t.dropLast.length).map (fun i => t.dropLast.take (i + 1)) := by
          intro hmem
          have := hmemlen t hmem
          omega
        have hlookt : fsLookup fs1 t = fsLookup fs t := hunch t htnotmem
        have hpar1 : ∃ pn, fsLookup fs1 t.dropLast = some pn ∧ pn.isDir = true := by
          by_cases hdn : t.dropLast = []
          · obtain ⟨rn, hrn, hrnd⟩ := hrootdir
            refine ⟨rn, ?_, hrnd⟩
            rw [hdn]
            have h0 : ([] : FsPath) ∉
                (List.range t.dropLast.length).map (fun i => t.dropLast.take (i + 1)) := by
              intro hmem
              obtain ⟨i, hi, _⟩ := List.mem_map.mp hmem
              have hi2 := List.mem_range.mp hi
              rw [hdn] at hi2
              simp at hi2
            rw [hunch ([] : FsPath) h0]
            exact hrn
          · have hdlen : 0 < t.dropLast.length := List.length_pos.mpr hdn
            have hmem : t.dropLast ∈
                (List.range t.dropLast.length).map (fun i => t.dropLast.take (i + 1)) := by
              refine List.mem_map.mpr ⟨t.dropLast.length - 1, List.mem_range.mpr (by omega), ?_⟩
              have h1 : t.dropLast.length - 1 + 1 = t.dropLast.length := by omega
              rw [h1, List.take_length]
            obtain ⟨n2, hn2, hn2d, _⟩ := hall t.dropLast hmem
            exact ⟨n2, hn2, hn2d⟩
        have hnd1 : ∀ st, fsLookup fs1 t = some st → st.isDir = false := by
          intro st hst
          rw [hlookt] at hst
          exact hnd st hst
        obtain ⟨st, hw, hstd, hstc, _⟩ := writeFileFs_ok now fs1 t body htne hpar1 hnd1
        have hpweq : putWrite fs t body now ops0 =
            ⟨some ⟨200, [], .entry (toDirectoryEntry st (lastName t))⟩, fsSet fs1 t st,
             ops0 ++ [.exCheck t.dropLast, .mkdirsOp t.dropLast, .writeOp t, .statOp t]⟩ := by
          simp only [putWrite, hdex, Bool.false_eq_true, if_false, mkdirsFs, heq, hw]
          rw [fsLookup_fsSet, if_pos rfl]
        refine ⟨st, fs1, ops0 ++ [.exCheck t.dropLast, .mkdirsOp t.dropLast, .writeOp t, .statOp t],
          hstd, hstc, hpweq, ?_, ?_⟩
        · obtain ⟨pn, hpn, hpd⟩ := hpar1
          refine ⟨pn, ?_, hpd⟩
          rw [fsLookup_fsSet]
          rw [if_neg (fun h => hdirne h.symm)]
          exact hpn
        · intro _ i hi0 hi
          have hmem : t.take i ∈
              (List.range t.dropLast.length).map (fun j => t.dropLast.take (j + 1)) := by
            refine List.mem_map.mpr ⟨i - 1, List.mem_range.mpr ?_, ?_⟩
            · rw [List.length_dropLast]
              omega
            · rw [hdirtake, List.take_take]
              have hm2 : (i - 1 + 1) ⊓ (t.length - 1) = i := by omega
              rw [hm2]
          obtain ⟨n2, hn2, hn2d, _⟩ := hall (t.take i) hmem
          refine ⟨n2, ?_, hn2d⟩
          rw [fsLookup_fsSet]
          rw [if_neg (fun h => take_ne_of_lt t i hi h.symm)]
          exact hn2
    cases hl : fsLookup fs t with
    | some st0 =>
      have hst0 : st0.isDir = false := hnd st0 hl
      obtain ⟨st, fs1, ops2, hstd, hstc, hpw, hpar, hmid⟩ := key [.exCheck t, .statOp t]
      have hph : putHandler root fs reqPath body now =
          ⟨some ⟨200, [], .entry (toDirectoryEntry st (lastName t))⟩, fsSet fs1 t st, ops2⟩ := by
        simp only [putHandler, hguard, Bool.false_eq_true, if_false, ← ht, hl, hst0, hpw]
      refine ⟨st, fs1, hstd, hstc, ?_, ?_, ?_, ?_, hpar, hmid⟩
      · simp only [toDirectoryEntry, hstc]
      · rw [hph]
      · rw [hph]
      · rw [fsLookup_fsSet, if_pos rfl]
    | none =>
      obtain ⟨st, fs1, ops2, hstd, hstc, hpw, hpar, hmid⟩ := key [.exCheck t]
      have hph : putHandler root fs reqPath body now =
          ⟨some ⟨200, [], .entry (toDirectoryEntry st (lastName t))⟩, fsSet fs1 t st, ops2⟩ := by
        simp only [putHandler, hguard, Bool.false_eq_true, if_false, ← ht, hl, hpw]
      refine ⟨st, fs1, hstd, hstc, ?_, ?_, ?_, ?_, hpar, hmid⟩
      · simp only [toDirectoryEntry, hstc]
      · rw [hph]
      · rw [hph]
      · rw [fsLookup_fsSet, if_pos rfl]
  · intro rp hrp
    have hguard2 : (IS_OUTSIDE root (normalizePath rp) || (normalizePath rp == ['/'])) = true := by
      rcases hrp with h | h <;> rw [h] <;> simp
    simp only [putHandler, hguard2, if_true]

/-- C5 witness: writing to `/A`, an existing directory, returns 409 with
no bytes written. -/
theorem c5_witness :
    putHandler rootW fsListW "/A".toList [9] 7 =
      ⟨some (statusOnly 409), fsListW,
       [.exCheck ["share".toList, "A".toList], .statOp ["share".toList, "A".toList]]⟩ :=
  (c5_write_file_amended rootW fsListW "/A".toList [9] 7 ["share".toList, "A".toList]
    (by decide) (by decide) (by decide)).1 (dirNode 3 3) (by decide) (by decide)
